import Mathlib

/-!
Verification of the HireFlow multi-agent evaluation pipeline
(`hireflow_backend/agents.js`, the decision engine appended to
`hireflow_backend/README.md`, and the Gemini agent variant appended to
`hireflow_backend/server.js`).

The JavaScript values that flow between the components are JSON values
produced by `JSON.parse`, so the embedding models them with an explicit
`Json` type and an executable parser that mirrors the JSON grammar.
External AI capabilities (SmartInference / Gemini calls) are modelled by
their observable behaviour: either the awaited call rejects with an error
message, or it resolves with a response text.  Prompt construction in the
source only shapes the text sent to the capability; since the capability's
reply is an input of the model, prompts do not appear here.
-/

namespace HireFlow

/-- JSON values as produced by `JSON.parse`.  Numbers are modelled as
rationals (JSON number literals are finite decimals with an optional
exponent, all representable in `ℚ`).  Objects keep their key/value pairs
in source order; as in JavaScript, a duplicated key is resolved to the
last occurrence by `Json.getField`. -/
inductive Json where
  | null : Json
  | bool : Bool → Json
  | num : ℚ → Json
  | str : String → Json
  | arr : List Json → Json
  | obj : List (String × Json) → Json
deriving Repr

/-- Property read `o[k]` on a JSON value: for objects, the last binding of
the key (JavaScript keeps the last duplicate); `none` models `undefined`. -/
def Json.getField : Json → String → Option Json
  | .obj kvs, k => (kvs.reverse.find? (fun p => p.1 == k)).map Prod.snd
  | _, _ => none

/-- Property write `o[k] = v`: replaces every binding of the key (so that
`getField` sees the new value) or appends a fresh binding.  On non-object
values the write is a no-op, matching JavaScript's silent discard of
property writes on primitives. -/
def Json.setField : Json → String → Json → Json
  | .obj kvs, k, v =>
    if kvs.any (fun p => p.1 == k) then
      .obj (kvs.map (fun p => if p.1 == k then (k, v) else p))
    else
      .obj (kvs ++ [(k, v)])
  | j, _, _ => j

/-- JavaScript truthiness of a possibly-absent value, as used by
`!decision.follow_up_question` and `if (followUp)` in the decision engine. -/
def truthy : Option Json → Bool
  | none => false
  | some .null => false
  | some (.bool b) => b
  | some (.num q) => decide (q ≠ 0)
  | some (.str s) => s ≠ ""
  | some (.arr _) => true
  | some (.obj _) => true

/-- JavaScript string coercion, as used by `decision.reasoning += "..."`.
The number and array renderings are abstractions (none of the verified
paths coerce those shapes). -/
def jsToString : Option Json → String
  | some (.str s) => s
  | none => "undefined"
  | some .null => "null"
  | some (.bool b) => if b then "true" else "false"
  | some (.num q) => toString q.num ++ (if q.den = 1 then "" else "/" ++ toString q.den)
  | some (.arr _) => ""
  | some (.obj _) => "[object Object]"

/-- Numeric field access, e.g. `evaluations.hr.score` when the stored
value is a JSON number. -/
def Json.numField (j : Json) (k : String) : Option ℚ :=
  match j.getField k with
  | some (.num q) => some q
  | _ => none

/-! ### A JSON parser (the semantics of `JSON.parse` on the texts the
backend extracts from AI responses).

The parser is recursive descent over the character list, with a fuel
argument for termination; `jsonParse` supplies ample fuel.  `\uXXXX`
escapes are decoded with `Char.ofNat` (lone surrogates, which JavaScript
strings tolerate, are abstracted to the replacement behaviour of
`Char.ofNat`). -/

def isWsChar (c : Char) : Bool :=
  [' ', '\t', '\n', '\r'].contains c

def skipWs : List Char → List Char
  | [] => []
  | c :: cs => if isWsChar c then skipWs cs else c :: cs

/-- `String.prototype.trim()`: strip whitespace from both ends (modelled
for the ASCII whitespace the backend's texts contain). -/
def jsTrim (s : String) : String :=
  (skipWs (skipWs s.toList).reverse).reverse.asString

def isDigitCh (c : Char) : Bool :=
  48 ≤ c.toNat && c.toNat ≤ 57

def digitVal (c : Char) : Nat := c.toNat - 48

def takeDigits : List Char → List Char × List Char
  | [] => ([], [])
  | c :: cs =>
    if isDigitCh c then
      let (ds, r) := takeDigits cs
      (c :: ds, r)
    else ([], c :: cs)

def digitsToNat (ds : List Char) : Nat :=
  ds.foldl (fun n c => 10 * n + digitVal c) 0

/-- Fraction digits after the decimal point, when present. -/
def parseFracPart : List Char → Option (List Char × List Char)
  | '.' :: r =>
    let (fds, r2) := takeDigits r
    if fds.isEmpty then none else some (fds, r2)
  | cs => some ([], cs)

def parseExpPart : List Char → Option (Int × List Char)
  | c :: r =>
    if c == 'e' || c == 'E' then
      let (sgn, r1) : Int × List Char :=
        match r with
        | '+' :: t => (1, t)
        | '-' :: t => (-1, t)
        | t => (1, t)
      let (eds, r2) := takeDigits r1
      if eds.isEmpty then none else some (sgn * (digitsToNat eds : Int), r2)
    else some (0, c :: r)
  | [] => some (0, [])

/-- JSON number grammar: `-? (0 | [1-9][0-9]*) frac? exp?`.  The value
`sign * I.F * 10^ex` is assembled as a single normalized rational
`mkRat (sign * (I*10^f + F) * 10^max(ex,0)) (10^f * 10^max(-ex,0))`
where `f` is the number of fraction digits. -/
def parseNumber (cs : List Char) : Option (ℚ × List Char) :=
  let (neg, cs1) : Bool × List Char :=
    match cs with
    | '-' :: r => (true, r)
    | _ => (false, cs)
  let (ids, cs2) := takeDigits cs1
  if ids.isEmpty then none
  else if ids.length > 1 && ids.head? == some '0' then none
  else
    match parseFracPart cs2 with
    | none => none
    | some (fds, cs3) =>
      match parseExpPart cs3 with
      | none => none
      | some (ex, cs4) =>
        let base : Int := (digitsToNat ids * 10 ^ fds.length + digitsToNat fds : Nat)
        let signedBase : Int := if neg then -base else base
        let mag : ℚ :=
          if 0 ≤ ex then mkRat (signedBase * (10 : Int) ^ ex.toNat) (10 ^ fds.length)
          else mkRat signedBase (10 ^ fds.length * 10 ^ (-ex).toNat)
        some (mag, cs4)

/-- Value of one hex digit of a `\uXXXX` escape (code points 0-9, a-f,
A-F). -/
def hexVal (c : Char) : Option Nat :=
  let n := c.toNat
  if 48 ≤ n && n ≤ 57 then some (n - 48)
  else if 97 ≤ n && n ≤ 102 then some (n - 87)
  else if 65 ≤ n && n ≤ 70 then some (n - 55)
  else none

/-- Body of a JSON string after the opening quote: returns the decoded
content and the characters after the closing quote. -/
def parseStringRest : Nat → List Char → Option (List Char × List Char)
  | 0, _ => none
  | _, [] => none
  | fuel + 1, c :: cs =>
    if c == '"' then some ([], cs)
    else if c == '\\' then
      match cs with
      | [] => none
      | e :: cs2 =>
        let cont (ch : Char) (rest : List Char) : Option (List Char × List Char) :=
          match parseStringRest fuel rest with
          | some (out, r) => some (ch :: out, r)
          | none => none
        if e == '"' then cont '"' cs2
        else if e == '\\' then cont '\\' cs2
        else if e == '/' then cont '/' cs2
        else if e == 'b' then cont (Char.ofNat 8) cs2
        else if e == 'f' then cont (Char.ofNat 12) cs2
        else if e == 'n' then cont '\n' cs2
        else if e == 'r' then cont '\r' cs2
        else if e == 't' then cont '\t' cs2
        else if e == 'u' then
          match cs2 with
          | h1 :: h2 :: h3 :: h4 :: cs3 =>
            match hexVal h1, hexVal h2, hexVal h3, hexVal h4 with
            | some a, some b, some c3, some d =>
              cont (Char.ofNat (((a * 16 + b) * 16 + c3) * 16 + d)) cs3
            | _, _, _, _ => none
          | _ => none
        else none
    else if c.toNat < 32 then none
    else
      match parseStringRest fuel cs with
      | some (out, r) => some (c :: out, r)
      | none => none

/-- Consume an expected literal tail (for `true` / `false` / `null`). -/
def litRest : List Char → List Char → Option (List Char)
  | [], r => some r
  | l :: ls, c :: r => if c == l then litRest ls r else none
  | _ :: _, [] => none

mutual

def parseValue : Nat → List Char → Option (Json × List Char)
  | 0, _ => none
  | fuel + 1, cs =>
    match skipWs cs with
    | [] => none
    | c :: r =>
      if c == '"' then
        match parseStringRest (r.length + 1) r with
        | some (content, rest) => some (.str content.asString, rest)
        | none => none
      else if c == '{' then
        let r1 := skipWs r
        if r1.head? == some '}' then some (.obj [], r1.tail)
        else
          match parseMembers fuel r1 with
          | some (ms, rest) => some (.obj ms, rest)
          | none => none
      else if c == '[' then
        let r1 := skipWs r
        if r1.head? == some ']' then some (.arr [], r1.tail)
        else
          match parseElems fuel r1 with
          | some (vs, rest) => some (.arr vs, rest)
          | none => none
      else if c == 't' then
        match litRest ['r', 'u', 'e'] r with
        | some rest => some (.bool true, rest)
        | none => none
      else if c == 'f' then
        match litRest ['a', 'l', 's', 'e'] r with
        | some rest => some (.bool false, rest)
        | none => none
      else if c == 'n' then
        match litRest ['u', 'l', 'l'] r with
        | some rest => some (.null, rest)
        | none => none
      else
        match parseNumber (c :: r) with
        | some (q, rest) => some (.num q, rest)
        | none => none

/-- One or more `"key" : value` members, consuming the closing brace. -/
def parseMembers : Nat → List Char → Option (List (String × Json) × List Char)
  | 0, _ => none
  | fuel + 1, cs =>
    match skipWs cs with
    | '"' :: r =>
      match parseStringRest (r.length + 1) r with
      | some (key, r2) =>
        match skipWs r2 with
        | ':' :: r3 =>
          match parseValue fuel r3 with
          | some (v, r4) =>
            match skipWs r4 with
            | ',' :: r5 =>
              match parseMembers fuel r5 with
              | some (ms, r6) => some ((key.asString, v) :: ms, r6)
              | none => none
            | '}' :: r5 => some ([(key.asString, v)], r5)
            | _ => none
          | none => none
        | _ => none
      | none => none
    | _ => none

/-- One or more array elements, consuming the closing bracket. -/
def parseElems : Nat → List Char → Option (List Json × List Char)
  | 0, _ => none
  | fuel + 1, cs =>
    match parseValue fuel cs with
    | some (v, r) =>
      match skipWs r with
      | ',' :: r2 =>
        match parseElems fuel r2 with
        | some (vs, r3) => some (v :: vs, r3)
        | none => none
      | ']' :: r2 => some ([v], r2)
      | _ => none
    | none => none

end

/-- `JSON.parse`: parse one value and require only whitespace afterwards;
`none` models a thrown `SyntaxError`. -/
def jsonParse (s : String) : Option Json :=
  match parseValue (2 * s.length + 8) s.toList with
  | some (v, rest) => if (skipWs rest).isEmpty then some v else none
  | none => none

/-! ### The response-scraping regex

Every component extracts a JSON candidate from the AI response with
`/\x7b[\s\S]*\x7d/`.  Because `[\s\S]*` is greedy and `exec` returns the
leftmost match, the match — when it exists — spans from the first opening
brace of the text to the last closing brace, and there is no match exactly
when no closing brace occurs after the first opening brace. -/

/-- Suffix of the list starting at the first occurrence of `target`. -/
def fromFirstOf (target : Char) : List Char → Option (List Char)
  | [] => none
  | c :: cs => if c == target then some (c :: cs) else fromFirstOf target cs

/-- `regex.exec(text)[0]` for the scraping regex: the span from the first
opening brace to the last closing brace, if the latter occurs after
the former. -/
def extractBraces (s : String) : Option String :=
  match fromFirstOf '{' s.toList with
  | none => none
  | some tail =>
    match fromFirstOf '}' tail.reverse with
    | none => none
    | some revSpan => some revSpan.reverse.asString

/-! ### Capability behaviour

A call to an external AI capability (SmartInference HTTPS call or Gemini
`generateContent`) either rejects — network error, bad status, timeout —
with an error message, or resolves with the model's response text. -/

/-- Observable behaviour of one awaited capability invocation. -/
inductive CapResult where
  | failure (msg : String)
  | ok (text : String)

/-! ### `agents.js` — `Agent.evaluate` and `evaluateCandidate` -/

/-- The neutral evaluation `Agent.evaluate` returns from its `catch`
block: score 5, recommendation MAYBE, the failure cause recorded in the
analysis. -/
def placeholderEval (msg : String) : Json :=
  .obj [("score", .num 5),
        ("recommendation", .str "MAYBE"),
        ("analysis", .obj [("error", .str msg),
                           ("note", .str "Evaluation failed, returning neutral score")])]

/-- Fixed stand-in for the engine-specific `SyntaxError` message thrown by
`JSON.parse`. -/
def jsonSyntaxMsg : String := "Unexpected token in JSON"

/-- The body of the `try` block of `Agent.evaluate`: scrape the response
for a JSON object and parse it, throwing (`Except.error`) when the await
rejects, when the regex finds no match, or when `JSON.parse` fails. -/
def Agent.evaluateBody (resp : CapResult) : Except String Json :=
  match resp with
  | .failure msg => .error msg
  | .ok text =>
    match extractBraces text with
    | some m =>
      match jsonParse m with
      | some evaluation => .ok evaluation
      | none => .error jsonSyntaxMsg
    | none => .error "Invalid JSON response format from agent"

/-- `Agent.evaluate`: the `try` body with its `catch`, which converts any
failure into the neutral placeholder carrying the error message. -/
def Agent.evaluate (resp : CapResult) : Json :=
  match Agent.evaluateBody resp with
  | .ok evaluation => evaluation
  | .error msg => placeholderEval msg

/-- The complete evaluation set: one entry per configured agent, keyed
`hr` / `manager` / `sales` as in the object literal of
`evaluateCandidate`. -/
structure Evals where
  hr : Json
  manager : Json
  sales : Json

/-- The association list underlying the `evaluations` object literal. -/
def Evals.toPairs (e : Evals) : List (String × Json) :=
  [("hr", e.hr), ("manager", e.manager), ("sales", e.sales)]

/-- `Promise.all` over the three evaluation branches: resolves with all
three values, or rejects with the first branch rejection. -/
def promiseAll3 (a b c : Except String Json) :
    Except String (Json × Json × Json) :=
  match a, b, c with
  | .ok x, .ok y, .ok z => .ok (x, y, z)
  | .error e, _, _ => .error e
  | _, .error e, _ => .error e
  | _, _, .error e => .error e

/-- `evaluateCandidate`: fan out the three agents, join with
`Promise.all`, assemble the named evaluation set.  Each branch is
`Agent.evaluate`, an async function that always returns (its `catch`
converts the branch's own failure), so each branch's promise resolves.
The surrounding `try` rethrows, hence the `Except` result type. -/
def evaluateCandidate (hrResp managerResp salesResp : CapResult) :
    Except String Evals :=
  match promiseAll3 (.ok (Agent.evaluate hrResp))
      (.ok (Agent.evaluate managerResp))
      (.ok (Agent.evaluate salesResp)) with
  | .ok (hrEval, managerEval, salesEval) =>
    .ok { hr := hrEval, manager := managerEval, sales := salesEval }
  | .error e => .error e

/-! ### Discrepancy detection and negotiation

`negotiateScores` exists twice in the repository: in `agents.js`
(SmartInference, the copy imported by the decision engine) and appended to
`server.js` (Gemini).  Both are translated; they differ only in how the
no-regex-match case reaches `return null`.

Scores are read with plain JavaScript field access; when any of the three
is not a JSON number the arithmetic yields `NaN`, every comparison with
`NaN` is false, and no negotiation happens — the `none` branch of
`scores?` models that. -/

/-- The three `score` fields, when all are JSON numbers. -/
def scores? (e : Evals) : Option (ℚ × ℚ × ℚ) :=
  match e.hr.numField "score", e.manager.numField "score",
      e.sales.numField "score" with
  | some a, some b, some c => some (a, b, c)
  | _, _, _ => none

/-- `maxDiff`: the largest absolute deviation of a score from the
arithmetic mean of the three. -/
def maxDeviation (a b c : ℚ) : ℚ :=
  let avgScore := (a + b + c) / 3
  max |a - avgScore| (max |b - avgScore| |c - avgScore|)

/-- The discrepancy test `maxDiff > 2` guarding negotiation. -/
def needsNegotiation (e : Evals) : Bool :=
  match scores? e with
  | some (a, b, c) => decide (2 < maxDeviation a b c)
  | none => false

namespace Agents

/-- The `try` body of `negotiateScores` (`agents.js`), paired with the
number of mediator invocations it performs: when the discrepancy test
fires it calls SmartInference once and throws if the await rejects, if
`JSON.parse` fails, or — explicitly — if the regex finds no match. -/
def negotiateScoresRun (e : Evals) (mediator : CapResult) :
    Except String (Option Json) × Nat :=
  if needsNegotiation e then
    match mediator with
    | .failure msg => (.error msg, 1)
    | .ok text =>
      match extractBraces text with
      | some m =>
        match jsonParse m with
        | some negotiation => (.ok (some negotiation), 1)
        | none => (.error jsonSyntaxMsg, 1)
      | none => (.error "Failed to parse JSON negotiation from AI response", 1)
  else (.ok none, 0)

/-- `negotiateScores` (`agents.js`): the body with its `catch`, which
turns every failure into `null`.  The second component counts mediator
invocations. -/
def negotiateScores (e : Evals) (mediator : CapResult) : Option Json × Nat :=
  match negotiateScoresRun e mediator with
  | (.ok r, n) => (r, n)
  | (.error _, n) => (none, n)

end Agents

namespace GeminiAgents

/-- The `try` body of the `negotiateScores` copy appended to `server.js`:
identical except that a missing regex match falls through to
`return null` instead of throwing. -/
def negotiateScoresRun (e : Evals) (mediator : CapResult) :
    Except String (Option Json) × Nat :=
  if needsNegotiation e then
    match mediator with
    | .failure msg => (.error msg, 1)
    | .ok text =>
      match extractBraces text with
      | some m =>
        match jsonParse m with
        | some negotiation => (.ok (some negotiation), 1)
        | none => (.error jsonSyntaxMsg, 1)
      | none => (.ok none, 1)
  else (.ok none, 0)

/-- `negotiateScores` (`server.js`): body plus `catch` returning `null`. -/
def negotiateScores (e : Evals) (mediator : CapResult) : Option Json × Nat :=
  match negotiateScoresRun e mediator with
  | (.ok r, n) => (r, n)
  | (.error _, n) => (none, n)

end GeminiAgents

/-! ### The decision engine (`decision.js`, appended to the backend README)

`decideHiring` imports `negotiateScores` from `agents.js`.  The judgment
and clarification capabilities are again modelled by their observable
behaviour; the prompts built from the evaluations and the negotiation
result only shape the capability's input text. -/

/-- `generateFinalDecision`: scrape and parse the judgment response;
its own `catch` converts every failure — rejected call, no regex match
(the explicit throw), unparseable JSON — into `null`. -/
def generateFinalDecision (judgment : CapResult) : Option Json :=
  match judgment with
  | .failure _ => none
  | .ok text =>
    match extractBraces text with
    | some m =>
      match jsonParse m with
      | some decision => some decision
      | none => none
    | none => none

/-- `generateFollowUpQuestion`: returns the trimmed response text, or
`null` when the call rejects (its `catch`). -/
def generateFollowUpQuestion (clarification : CapResult) : Option String :=
  match clarification with
  | .failure _ => none
  | .ok text => some (jsTrim text)

/-- The strict comparison `decision.final_decision === 'MAYBE'`. -/
def isMaybeOutcome (d : Json) : Bool :=
  match d.getField "final_decision" with
  | some (.str s) => s == "MAYBE"
  | _ => false

/-- Sentence appended to the rationale when a follow-up is attached. -/
def clarifyNote : String :=
  " A follow-up question is recommended to clarify ambiguities."

/-- The two mutations performed when a follow-up question is attached:
set `follow_up_question`, then append the note to `reasoning` (JavaScript
string coercion applies when `reasoning` is not a string). -/
def attachFollowUp (d : Json) (q : String) : Json :=
  let d1 := d.setField "follow_up_question" (.str q)
  d1.setField "reasoning" (.str (jsToString (d1.getField "reasoning") ++ clarifyNote))

/-- The neutral decision returned by the `catch` block of `decideHiring`. -/
def fallbackDecision (msg : String) : Json :=
  .obj [("final_decision", .str "MAYBE"),
        ("confidence_score", .num (1 / 2)),
        ("reasoning", .str "Decision could not be fully evaluated. Recommend manual review."),
        ("error", .str msg),
        ("details", .obj [])]

/-- Fixed stand-in for the `TypeError` message raised by reading
`final_decision` on the `null` that `generateFinalDecision` returns when
the judgment capability fails. -/
def nullReadMsg : String :=
  "Cannot read properties of null (reading final_decision)"

/-- The `try` body of `decideHiring`, paired with the number of
clarification-generator invocations: negotiate, ask the judgment
capability, and — when the outcome is `MAYBE` with no truthy
`follow_up_question` — ask for a follow-up, attaching it only when the
trimmed text is truthy (non-empty).  Reading `final_decision` on a `null`
judgment result throws the `TypeError`. -/
def decideHiringBody (e : Evals) (mediator judgment clarification : CapResult) :
    Except String (Json × Nat) :=
  let _negotiationResult := (Agents.negotiateScores e mediator).1
  match generateFinalDecision judgment with
  | none => .error nullReadMsg
  | some decision =>
    if isMaybeOutcome decision && !truthy (decision.getField "follow_up_question") then
      match generateFollowUpQuestion clarification with
      | some followUp =>
        if followUp == "" then .ok (decision, 1)
        else .ok (attachFollowUp decision followUp, 1)
      | none => .ok (decision, 1)
    else .ok (decision, 0)

/-- `decideHiring`: the body with its `catch`, which returns the neutral
manual-review decision instead of propagating any error. -/
def decideHiring (e : Evals) (mediator judgment clarification : CapResult) : Json :=
  match decideHiringBody e mediator judgment clarification with
  | .ok (decision, _) => decision
  | .error msg => fallbackDecision msg

/-- Number of clarification-generator invocations performed by one
`decideHiring` round. -/
def clarifierCalls (e : Evals) (mediator judgment clarification : CapResult) : Nat :=
  match decideHiringBody e mediator judgment clarification with
  | .ok (_, n) => n
  | .error _ => 0

/-- A mediator behaviour negotiation cannot use: the call rejects, or its
text yields no parseable JSON object. -/
def mediatorUnusable : CapResult → Bool
  | .failure _ => true
  | .ok text => ((extractBraces text).bind jsonParse).isNone

/-- Sample round with agreeing scores (all placeholders: 5/5/5). -/
def sampleAgree : Evals :=
  ⟨placeholderEval "x", placeholderEval "y", placeholderEval "z"⟩

/-- Sample round with conflicting scores 9/4/8 (mean 7, max deviation 3),
the Scenario B shape of the spec. -/
def sampleConflict : Evals :=
  ⟨.obj [("score", .num 9)], .obj [("score", .num 4)], .obj [("score", .num 8)]⟩

/-! ## Helper lemmas -/

lemma evaluateCandidate_eq (hrResp managerResp salesResp : CapResult) :
    evaluateCandidate hrResp managerResp salesResp =
      .ok ⟨Agent.evaluate hrResp, Agent.evaluate managerResp,
           Agent.evaluate salesResp⟩ := rfl

lemma Agent.evaluate_of_error {resp : CapResult} {msg : String}
    (h : Agent.evaluateBody resp = .error msg) :
    Agent.evaluate resp = placeholderEval msg := by
  unfold Agent.evaluate
  rw [h]

lemma placeholderEval_score (msg : String) :
    (placeholderEval msg).getField "score" = some (.num 5) := rfl

lemma placeholderEval_recommendation (msg : String) :
    (placeholderEval msg).getField "recommendation" = some (.str "MAYBE") := rfl

lemma placeholderEval_analysis (msg : String) :
    (placeholderEval msg).getField "analysis" =
      some (.obj [("error", .str msg),
                  ("note", .str "Evaluation failed, returning neutral score")]) := rfl

/-- The failure causes of `Agent.evaluate`: a thrown body error is a
rejected call, a missing regex match, or unparseable JSON. -/
lemma Agent.evaluateBody_error_cases {resp : CapResult} {msg : String}
    (h : Agent.evaluateBody resp = .error msg) :
    resp = .failure msg
      ∨ (∃ text, resp = .ok text ∧ extractBraces text = none
            ∧ msg = "Invalid JSON response format from agent")
      ∨ (∃ text m, resp = .ok text ∧ extractBraces text = some m
            ∧ jsonParse m = none ∧ msg = jsonSyntaxMsg) := by
  cases resp with
  | failure m =>
    left
    simp only [Agent.evaluateBody, Except.error.injEq] at h
    rw [h]
  | ok text =>
    right
    simp only [Agent.evaluateBody] at h
    cases hx : extractBraces text with
    | none =>
      left
      simp only [hx, Except.error.injEq] at h
      exact ⟨text, rfl, hx, h.symm⟩
    | some m =>
      right
      simp only [hx] at h
      cases hp : jsonParse m with
      | none =>
        simp only [hp, Except.error.injEq] at h
        exact ⟨text, m, rfl, hx, hp, h.symm⟩
      | some v => simp only [hp] at h; cases h

lemma needsNegotiation_of_scores {e : Evals} {a b c : ℚ}
    (h : scores? e = some (a, b, c)) :
    needsNegotiation e = decide (2 < maxDeviation a b c) := by
  unfold needsNegotiation
  rw [h]

lemma agents_negotiateScores_count (e : Evals) (r : CapResult) :
    (Agents.negotiateScores e r).2 = if needsNegotiation e then 1 else 0 := by
  unfold Agents.negotiateScores Agents.negotiateScoresRun
  by_cases h : needsNegotiation e
  · simp only [h, if_true]
    cases r with
    | failure msg => rfl
    | ok text =>
      cases hx : extractBraces text with
      | none => simp [hx]
      | some m => cases hp : jsonParse m <;> simp [hx, hp]
  · simp [h]

lemma gemini_negotiateScores_count (e : Evals) (r : CapResult) :
    (GeminiAgents.negotiateScores e r).2 = if needsNegotiation e then 1 else 0 := by
  unfold GeminiAgents.negotiateScores GeminiAgents.negotiateScoresRun
  by_cases h : needsNegotiation e
  · simp only [h, if_true]
    cases r with
    | failure msg => rfl
    | ok text =>
      cases hx : extractBraces text with
      | none => simp [hx]
      | some m => cases hp : jsonParse m <;> simp [hx, hp]
  · simp [h]

/-- The two `negotiateScores` implementations agree on every input. -/
lemma negotiateScores_impls_agree (e : Evals) (r : CapResult) :
    Agents.negotiateScores e r = GeminiAgents.negotiateScores e r := by
  unfold Agents.negotiateScores Agents.negotiateScoresRun
    GeminiAgents.negotiateScores GeminiAgents.negotiateScoresRun
  by_cases h : needsNegotiation e
  · simp only [h, if_true]
    cases r with
    | failure msg => rfl
    | ok text =>
      cases hx : extractBraces text with
      | none => simp [hx]
      | some m => cases hp : jsonParse m <;> simp [hx, hp]
  · simp [h]

lemma Agents.negotiateScores_null_of_unusable {e : Evals} {r : CapResult}
    (h : mediatorUnusable r = true) :
    (Agents.negotiateScores e r).1 = none := by
  unfold Agents.negotiateScores Agents.negotiateScoresRun
  by_cases hn : needsNegotiation e
  · simp only [hn, if_true]
    cases r with
    | failure msg => rfl
    | ok text =>
      cases hx : extractBraces text with
      | none => simp [hx]
      | some m =>
        cases hp : jsonParse m with
        | none => simp [hx, hp]
        | some v => simp [mediatorUnusable, hx, hp] at h
  · simp [hn]

lemma fromFirstOf_spec {target : Char} :
    ∀ {l m : List Char}, fromFirstOf target l = some m →
      ∃ pre, l = pre ++ m ∧ target ∉ pre ∧ m.head? = some target := by
  intro l
  induction l with
  | nil => intro m h; cases h
  | cons c cs ih =>
    intro m h
    simp only [fromFirstOf] at h
    by_cases hc : (c == target) = true
    · rw [if_pos hc] at h
      injection h with h'
      subst h'
      refine ⟨[], rfl, by simp, ?_⟩
      simp only [List.head?]
      exact congrArg some (eq_of_beq hc)
    · rw [if_neg hc] at h
      obtain ⟨pre, hpre, hnot, hhead⟩ := ih h
      refine ⟨c :: pre, by rw [hpre]; rfl, ?_, hhead⟩
      simp only [List.mem_cons, not_or]
      refine ⟨fun hh => hc (by simp [hh]), hnot⟩

/-- Span specification of the scraping regex: the match runs from the
first opening brace (nothing before it is `{`) to the last closing brace
(nothing after it is `}`). -/
lemma extractBraces_spec {s : String} {m : String}
    (h : extractBraces s = some m) :
    ∃ pre post : List Char,
      s.toList = pre ++ m.toList ++ post
        ∧ '{' ∉ pre ∧ '}' ∉ post
        ∧ m.toList.head? = some '{' ∧ m.toList.getLast? = some '}' := by
  unfold extractBraces at h
  cases h1 : fromFirstOf '{' s.toList with
  | none => simp only [h1] at h; exact Option.noConfusion h
  | some tail =>
    simp only [h1] at h
    cases h2 : fromFirstOf '}' tail.reverse with
    | none => simp only [h2] at h; exact Option.noConfusion h
    | some revSpan =>
      simp only [h2] at h
      injection h with h'
      obtain ⟨pre, hpre, hnotpre, hheadtail⟩ := fromFirstOf_spec h1
      obtain ⟨pre2, hpre2, hnotpre2, hheadrev⟩ := fromFirstOf_spec h2
      have hmlist : m.toList = revSpan.reverse := by rw [← h']; rfl
      have htail : tail = revSpan.reverse ++ pre2.reverse := by
        have := congrArg List.reverse hpre2
        simpa [List.reverse_append] using this
      have hspanne : revSpan ≠ [] := by
        intro hnil
        rw [hnil] at hheadrev
        cases hheadrev
      refine ⟨pre, pre2.reverse, ?_, hnotpre, ?_, ?_, ?_⟩
      · rw [hpre, htail, hmlist, List.append_assoc]
      · simpa using hnotpre2
      · rw [hmlist]
        have : tail.head? = some '{' := hheadtail
        rw [htail] at this
        rwa [List.head?_append_of_ne_nil _ (by simpa using hspanne)] at this
      · rw [hmlist, List.getLast?_reverse]
        exact hheadrev

lemma find?_map_set_self (k : String) (v : Json) :
    ∀ l : List (String × Json),
      (l.map fun p => if p.1 == k then (k, v) else p).find?
          (fun p => p.1 == k) =
        if l.any (fun p => p.1 == k) then some (k, v) else none := by
  intro l
  induction l with
  | nil => rfl
  | cons p rest ih =>
    by_cases hp : (p.1 == k) = true
    · rw [List.map_cons, if_pos hp,
        List.find?_cons_of_pos (p := fun (q : String × Json) => q.1 == k) _ (by simp),
        List.any_cons, hp, Bool.true_or, if_pos rfl]
    · have hp' : (p.1 == k) = false := by simpa using hp
      rw [List.map_cons, if_neg hp,
        List.find?_cons_of_neg (p := fun (q : String × Json) => q.1 == k) _ hp,
        List.any_cons, hp', Bool.false_or]
      exact ih

lemma find?_map_set_ne (k k' : String) (v : Json) (hkk : (k == k') = false) :
    ∀ l : List (String × Json),
      (l.map fun p => if p.1 == k then (k, v) else p).find?
          (fun p => p.1 == k') =
        l.find? (fun p => p.1 == k') := by
  intro l
  induction l with
  | nil => rfl
  | cons p rest ih =>
    by_cases hp : (p.1 == k) = true
    · have hpk : p.1 = k := eq_of_beq hp
      rw [List.map_cons, if_pos hp,
        List.find?_cons_of_neg (p := fun (q : String × Json) => q.1 == k') _ (by simp [hkk]),
        List.find?_cons_of_neg (p := fun (q : String × Json) => q.1 == k') _ (by simp [hpk, hkk])]
      exact ih
    · rw [List.map_cons, if_neg hp]
      by_cases hq : (p.1 == k') = true
      · rw [List.find?_cons_of_pos (p := fun (q : String × Json) => q.1 == k') _ hq,
          List.find?_cons_of_pos (p := fun (q : String × Json) => q.1 == k') _ hq]
      · rw [List.find?_cons_of_neg (p := fun (q : String × Json) => q.1 == k') _ hq,
          List.find?_cons_of_neg (p := fun (q : String × Json) => q.1 == k') _ hq]
        exact ih

lemma getField_set_self (kvs : List (String × Json)) (k : String) (v : Json) :
    ((Json.obj kvs).setField k v).getField k = some v := by
  simp only [Json.setField]
  by_cases h : (kvs.any fun p => p.1 == k) = true
  · rw [if_pos h]
    simp only [Json.getField]
    rw [← List.map_reverse, find?_map_set_self]
    have hrev : (kvs.reverse.any fun p => p.1 == k) = true := by
      simp only [List.any_eq_true] at h ⊢
      obtain ⟨x, hx, hxk⟩ := h
      exact ⟨x, List.mem_reverse.mpr hx, hxk⟩
    rw [if_pos hrev]
    rfl
  · rw [if_neg h]
    simp only [Json.getField]
    simp

lemma getField_set_ne (kvs : List (String × Json)) (k k' : String) (v : Json)
    (hkk : (k == k') = false) :
    ((Json.obj kvs).setField k v).getField k' = (Json.obj kvs).getField k' := by
  simp only [Json.setField]
  by_cases h : (kvs.any fun p => p.1 == k) = true
  · rw [if_pos h]
    simp only [Json.getField]
    rw [← List.map_reverse, find?_map_set_ne k k' v hkk]
  · rw [if_neg h]
    simp only [Json.getField]
    have hrev : (kvs ++ [(k, v)]).reverse = (k, v) :: kvs.reverse := by simp
    rw [hrev, List.find?_cons_of_neg (p := fun (q : String × Json) => q.1 == k') _ (by simp [hkk])]

lemma setField_obj (kvs : List (String × Json)) (k : String) (v : Json) :
    ∃ kvs2, (Json.obj kvs).setField k v = Json.obj kvs2 := by
  simp only [Json.setField]
  by_cases h : (kvs.any fun p => p.1 == k) = true
  · rw [if_pos h]; exact ⟨_, rfl⟩
  · rw [if_neg h]; exact ⟨_, rfl⟩

/-- Attaching a follow-up question makes it readable on the decision. -/
lemma attachFollowUp_question (kvs : List (String × Json)) (q : String) :
    (attachFollowUp (Json.obj kvs) q).getField "follow_up_question" =
      some (.str q) := by
  unfold attachFollowUp
  obtain ⟨kvs1, h1⟩ := setField_obj kvs "follow_up_question" (.str q)
  rw [h1, getField_set_ne _ _ _ _ (by decide), ← h1, getField_set_self]

/-- Attaching a follow-up question appends the note to a string
rationale. -/
lemma attachFollowUp_reasoning (kvs : List (String × Json)) (q s : String)
    (hs : (Json.obj kvs).getField "reasoning" = some (.str s)) :
    (attachFollowUp (Json.obj kvs) q).getField "reasoning" =
      some (.str (s ++ clarifyNote)) := by
  unfold attachFollowUp
  obtain ⟨kvs1, h1⟩ := setField_obj kvs "follow_up_question" (.str q)
  have hr : (Json.obj kvs1).getField "reasoning" = some (.str s) := by
    rw [← h1, getField_set_ne _ _ _ _ (by decide)]
    exact hs
  rw [h1]
  show ((Json.obj kvs1).setField "reasoning"
      (Json.str (jsToString ((Json.obj kvs1).getField "reasoning") ++ clarifyNote))).getField
      "reasoning" = some (Json.str (s ++ clarifyNote))
  rw [hr, getField_set_self]
  rfl

/-- When the judgment capability yields no decision, reading
`final_decision` on `null` throws and the catch returns the fallback. -/
lemma decideHiring_fallback_of_judgmentNone (e : Evals)
    (mediator judgment clarification : CapResult)
    (h : generateFinalDecision judgment = none) :
    decideHiring e mediator judgment clarification =
      fallbackDecision nullReadMsg := by
  unfold decideHiring decideHiringBody
  simp only [h]

/-- The decision body once the judgment capability has delivered a
decision object. -/
lemma decideHiringBody_eq {e : Evals}
    {mediator judgment clarification : CapResult} {d : Json}
    (hd : generateFinalDecision judgment = some d) :
    decideHiringBody e mediator judgment clarification =
      (if isMaybeOutcome d && !truthy (d.getField "follow_up_question") then
        match generateFollowUpQuestion clarification with
        | some followUp =>
          if followUp == "" then .ok (d, 1)
          else .ok (attachFollowUp d followUp, 1)
        | none => .ok (d, 1)
      else .ok (d, 0)) := by
  unfold decideHiringBody
  simp only [hd]

/-- A value parsed from a text beginning with an opening brace is an
object. -/
lemma parseValue_braceStart (fuel : Nat) (t : List Char) (v : Json)
    (rest : List Char) (h : parseValue fuel ('{' :: t) = some (v, rest)) :
    ∃ kvs, v = .obj kvs := by
  cases fuel with
  | zero => cases h
  | succ f =>
    rw [parseValue] at h
    simp only [show skipWs ('{' :: t) = '{' :: t from rfl,
      show (('{' : Char) == '\"') = false from rfl,
      show (('{' : Char) == '{') = true from rfl,
      Bool.false_eq_true, if_false, eq_self_iff_true, if_true] at h
    by_cases hh : ((skipWs t).head? == some '}') = true
    · rw [if_pos hh] at h
      injection h with h'
      exact ⟨[], (congrArg Prod.fst h').symm⟩
    · rw [if_neg hh] at h
      cases hm : parseMembers f (skipWs t) with
      | none => rw [hm] at h; cases h
      | some p =>
        rw [hm] at h
        obtain ⟨ms, r⟩ := p
        injection h with h'
        exact ⟨ms, (congrArg Prod.fst h').symm⟩

/-- A decision delivered by `generateFinalDecision` is always a JSON
object (the scraped text starts with the brace the regex anchored on). -/
lemma generateFinalDecision_obj {judgment : CapResult} {d : Json}
    (h : generateFinalDecision judgment = some d) : ∃ kvs, d = .obj kvs := by
  cases judgment with
  | failure msg => cases h
  | ok text =>
    simp only [generateFinalDecision] at h
    cases hx : extractBraces text with
    | none => simp only [hx] at h; exact Option.noConfusion h
    | some m =>
      simp only [hx] at h
      cases hp : jsonParse m with
      | none => simp only [hp] at h; exact Option.noConfusion h
      | some v =>
        simp only [hp] at h
        injection h with h'
        subst h'
        obtain ⟨pre, post, _, _, _, hhead, _⟩ := extractBraces_spec hx
        unfold jsonParse at hp
        cases hpv : parseValue (2 * m.length + 8) m.toList with
        | none => rw [hpv] at hp; cases hp
        | some p =>
          rw [hpv] at hp
          obtain ⟨v', rest⟩ := p
          cases hcs : m.toList with
          | nil => rw [hcs] at hhead; exact Option.noConfusion hhead
          | cons c0 ct =>
            rw [hcs] at hhead
            have hc0 : c0 = '{' := by
              injection hhead
            subst hc0
            rw [hcs] at hpv
            obtain ⟨kvs, hkvs⟩ := parseValue_braceStart _ _ _ _ hpv
            refine ⟨kvs, ?_⟩
            by_cases hrest : (skipWs rest).isEmpty = true
            · simp only [hrest, if_true] at hp
              injection hp with hp'
              rw [← hp', hkvs]
            · simp [hrest] at hp

/-! ## Claim theorems -/

/-- C1: for every evaluation set with three numeric scores and every
mediator behaviour, `negotiateScores` invokes the mediator exactly once
when the largest absolute deviation of a score from the arithmetic mean
exceeds the threshold 2, and does not invoke it at all otherwise. -/
theorem mediator_called_iff_deviation (e : Evals) (r : CapResult) (a b c : ℚ)
    (h : scores? e = some (a, b, c)) :
    ((Agents.negotiateScores e r).2 = 1 ↔ 2 < maxDeviation a b c)
    ∧ ((Agents.negotiateScores e r).2 = 0 ↔ ¬ 2 < maxDeviation a b c) := by
  rw [agents_negotiateScores_count, needsNegotiation_of_scores h]
  by_cases hd : 2 < maxDeviation a b c
  · simp [hd]
  · simp [hd]

/-- Witness for C1 at the Scenario B scores 9/4/8 (max deviation 3). -/
theorem mediator_called_iff_deviation_witness :
    (Agents.negotiateScores sampleConflict (.failure "down")).2 = 1 :=
  (mediator_called_iff_deviation sampleConflict (.failure "down") 9 4 8 rfl).1.mpr
    (by unfold maxDeviation; norm_num)

/-- C2: the fan-in join always resolves with all three branch results —
one slot per evaluator, none removed, no rejection — because every branch
converts its own failure to the placeholder before joining. -/
theorem fanin_waits_for_all_branches (hrResp managerResp salesResp : CapResult) :
    evaluateCandidate hrResp managerResp salesResp =
      Except.ok ⟨Agent.evaluate hrResp, Agent.evaluate managerResp,
        Agent.evaluate salesResp⟩
    ∧ (∀ msg, Agent.evaluateBody hrResp = .error msg →
        Agent.evaluate hrResp = placeholderEval msg)
    ∧ (∀ msg, Agent.evaluateBody managerResp = .error msg →
        Agent.evaluate managerResp = placeholderEval msg)
    ∧ (∀ msg, Agent.evaluateBody salesResp = .error msg →
        Agent.evaluate salesResp = placeholderEval msg) :=
  ⟨evaluateCandidate_eq _ _ _,
   fun _ h => Agent.evaluate_of_error h,
   fun _ h => Agent.evaluate_of_error h,
   fun _ h => Agent.evaluate_of_error h⟩

/-- Witness for C2: one branch times out, one succeeds, one errors; the
join still resolves with all three results. -/
theorem fanin_waits_for_all_branches_witness :
    evaluateCandidate (.failure "timeout")
        (.ok "\x7b\"score\":7,\"recommendation\":\"YES\"\x7d") (.failure "oops") =
      Except.ok ⟨placeholderEval "timeout",
        Json.obj [("score", Json.num 7), ("recommendation", Json.str "YES")],
        placeholderEval "oops"⟩ := by
  have h := fanin_waits_for_all_branches (.failure "timeout")
    (.ok "\x7b\"score\":7,\"recommendation\":\"YES\"\x7d") (.failure "oops")
  rw [h.1, h.2.1 "timeout" rfl, h.2.2.2 "oops" rfl]
  rfl

/-- C3: every failing evaluator invocation — rejected call, no JSON object
in the text, or unparseable JSON — produces the placeholder with score
exactly 5, recommendation exactly MAYBE, and an analysis recording the
failure cause; the error is not propagated (the branch returns a value). -/
theorem placeholder_substituted_on_failure (resp : CapResult) (msg : String)
    (h : Agent.evaluateBody resp = .error msg) :
    Agent.evaluate resp = placeholderEval msg
    ∧ (Agent.evaluate resp).getField "score" = some (.num 5)
    ∧ (Agent.evaluate resp).getField "recommendation" = some (.str "MAYBE")
    ∧ (Agent.evaluate resp).getField "analysis" =
        some (.obj [("error", .str msg),
          ("note", .str "Evaluation failed, returning neutral score")])
    ∧ (resp = .failure msg
        ∨ (∃ text, resp = .ok text ∧ extractBraces text = none
            ∧ msg = "Invalid JSON response format from agent")
        ∨ (∃ text m, resp = .ok text ∧ extractBraces text = some m
            ∧ jsonParse m = none ∧ msg = jsonSyntaxMsg)) := by
  have he := Agent.evaluate_of_error h
  exact ⟨he, by rw [he]; rfl, by rw [he]; rfl, by rw [he]; rfl,
    Agent.evaluateBody_error_cases h⟩

/-- Witness for C3: a response with no JSON object yields the placeholder
recording the cause. -/
theorem placeholder_substituted_on_failure_witness :
    Agent.evaluate (.ok "no json here") =
      placeholderEval "Invalid JSON response format from agent" ∧
    (Agent.evaluate (.ok "no json here")).getField "score" = some (.num 5) :=
  ⟨(placeholder_substituted_on_failure (.ok "no json here") _ rfl).1,
   (placeholder_substituted_on_failure (.ok "no json here") _ rfl).2.1⟩

/-- C4: if the judgment capability fails entirely (rejected call, no JSON
object in the text, or unparseable JSON), `decideHiring` returns the fixed
fallback decision — outcome MAYBE, confidence 0.5, a manual-review
rationale, empty details — and its catch converts every body error into a
returned decision instead of raising. -/
theorem decision_fallback_on_judgment_failure (e : Evals)
    (mediator judgment clarification : CapResult)
    (h : generateFinalDecision judgment = none) :
    decideHiring e mediator judgment clarification = fallbackDecision nullReadMsg
    ∧ (decideHiring e mediator judgment clarification).getField "final_decision"
        = some (.str "MAYBE")
    ∧ (decideHiring e mediator judgment clarification).getField "confidence_score"
        = some (.num (1 / 2))
    ∧ (decideHiring e mediator judgment clarification).getField "reasoning"
        = some (.str "Decision could not be fully evaluated. Recommend manual review.")
    ∧ (decideHiring e mediator judgment clarification).getField "details"
        = some (.obj [])
    ∧ (∀ msg, decideHiringBody e mediator judgment clarification = .error msg →
        decideHiring e mediator judgment clarification = fallbackDecision msg) := by
  have hd := decideHiring_fallback_of_judgmentNone e mediator judgment clarification h
  refine ⟨hd, by rw [hd]; rfl, by rw [hd]; rfl, by rw [hd]; rfl, by rw [hd]; rfl, ?_⟩
  intro msg hmsg
  unfold decideHiring
  simp only [hmsg]

/-- Witness for C4: every capability fails, the fallback is returned. -/
theorem decision_fallback_on_judgment_failure_witness :
    decideHiring sampleAgree (.failure "m") (.failure "j") (.failure "c") =
      fallbackDecision nullReadMsg :=
  (decision_fallback_on_judgment_failure sampleAgree
    (.failure "m") (.failure "j") (.failure "c") rfl).1

/-- C5 counterexample: the code does not validate the parsed object — a
response whose object has neither a numeric score nor a recommendation is
returned as-is (not replaced by a placeholder), and a text holding two
parseable objects yields the placeholder because the greedy regex spans
from the first opening to the last closing brace rather than matching the
first balanced object. -/
theorem scrape_no_validation_cex :
    Agent.evaluate (.ok "\x7b\"note\":\"hi\"\x7d") = Json.obj [("note", Json.str "hi")]
    ∧ (Agent.evaluate (.ok "\x7b\"note\":\"hi\"\x7d")).getField "score" = none
    ∧ (Agent.evaluate (.ok "\x7b\"note\":\"hi\"\x7d")).getField "recommendation" = none
    ∧ extractBraces "\x7b\"a\":1\x7d \x7b\"b\":2\x7d" = some "\x7b\"a\":1\x7d \x7b\"b\":2\x7d"
    ∧ jsonParse "\x7b\"a\":1\x7d" = some (Json.obj [("a", Json.num 1)])
    ∧ Agent.evaluate (.ok "\x7b\"a\":1\x7d \x7b\"b\":2\x7d") = placeholderEval jsonSyntaxMsg :=
  ⟨rfl, rfl, rfl, rfl, rfl, rfl⟩

/-- C5 amended: the orchestrator extracts the greedy span from the first
opening brace to the last closing brace, parses it with `JSON.parse`, and
treats parse failure or a missing span as an invocation failure
(placeholder); a successfully parsed object is returned without any
validation of its fields. -/
theorem scrape_parse_characterization (t : String) :
    (∀ m, extractBraces t = some m →
      (∃ pre post : List Char,
          t.toList = pre ++ m.toList ++ post ∧ '{' ∉ pre ∧ '}' ∉ post
          ∧ m.toList.head? = some '{' ∧ m.toList.getLast? = some '}')
      ∧ (∀ v, jsonParse m = some v → Agent.evaluate (.ok t) = v)
      ∧ (jsonParse m = none →
          Agent.evaluate (.ok t) = placeholderEval jsonSyntaxMsg))
    ∧ (extractBraces t = none →
        Agent.evaluate (.ok t) =
          placeholderEval "Invalid JSON response format from agent") := by
  constructor
  · intro m hm
    refine ⟨extractBraces_spec hm, ?_, ?_⟩
    · intro v hv
      unfold Agent.evaluate Agent.evaluateBody
      simp [hm, hv]
    · intro hv
      unfold Agent.evaluate Agent.evaluateBody
      simp [hm, hv]
  · intro hm
    unfold Agent.evaluate Agent.evaluateBody
    simp [hm]

/-- Witness for C5 (amended): a balanced span embedded in prose is
extracted, parsed, and passed through. -/
theorem scrape_parse_characterization_witness :
    Agent.evaluate (.ok "x \x7b\"a\":1\x7d y") = Json.obj [("a", Json.num 1)] :=
  ((scrape_parse_characterization "x \x7b\"a\":1\x7d y").1 _ rfl).2.1 _ rfl

/-- C6: for every combination of evaluator behaviours the evaluation set
has exactly the keys hr, manager, sales in that fixed order, and every
failed evaluator's entry is the 5/MAYBE placeholder. -/
theorem evalset_keys_fixed_and_placeholders (hrResp managerResp salesResp : CapResult) :
    ∃ e : Evals, evaluateCandidate hrResp managerResp salesResp = Except.ok e
      ∧ e.toPairs.map Prod.fst = ["hr", "manager", "sales"]
      ∧ (∀ msg, Agent.evaluateBody hrResp = .error msg →
          e.hr = placeholderEval msg
          ∧ e.hr.getField "score" = some (.num 5)
          ∧ e.hr.getField "recommendation" = some (.str "MAYBE"))
      ∧ (∀ msg, Agent.evaluateBody managerResp = .error msg →
          e.manager = placeholderEval msg
          ∧ e.manager.getField "score" = some (.num 5)
          ∧ e.manager.getField "recommendation" = some (.str "MAYBE"))
      ∧ (∀ msg, Agent.evaluateBody salesResp = .error msg →
          e.sales = placeholderEval msg
          ∧ e.sales.getField "score" = some (.num 5)
          ∧ e.sales.getField "recommendation" = some (.str "MAYBE")) := by
  refine ⟨_, evaluateCandidate_eq _ _ _, rfl, ?_, ?_, ?_⟩ <;>
    · intro msg h
      have he := Agent.evaluate_of_error h
      exact ⟨he, by rw [he]; rfl, by rw [he]; rfl⟩

/-- Witness for C6: hr and sales fail, manager succeeds; keys are fixed
and both failed entries are placeholders. -/
theorem evalset_keys_fixed_and_placeholders_witness :
    ∃ e : Evals,
      evaluateCandidate (.failure "t")
          (.ok "\x7b\"score\":8,\"recommendation\":\"YES\"\x7d") (.failure "u")
        = Except.ok e
      ∧ e.toPairs.map Prod.fst = ["hr", "manager", "sales"]
      ∧ e.hr = placeholderEval "t" ∧ e.sales = placeholderEval "u" := by
  obtain ⟨e, h1, h2, h3, _h4, h5⟩ := evalset_keys_fixed_and_placeholders
    (.failure "t") (.ok "\x7b\"score\":8,\"recommendation\":\"YES\"\x7d") (.failure "u")
  exact ⟨e, h1, h2, (h3 "t" rfl).1, (h5 "u" rfl).1⟩

/-- C7 counterexample: when the judgment capability replies with outcome
HIRE_NOW and confidence 2, `decideHiring` returns them unvalidated — the
confidence is outside [0,1] and the outcome outside HIRE/REJECT/MAYBE. -/
theorem decision_bounds_cex :
    decideHiring sampleAgree (.failure "m")
        (.ok "\x7b\"final_decision\":\"HIRE_NOW\",\"confidence_score\":2\x7d")
        (.failure "c")
      = Json.obj [("final_decision", Json.str "HIRE_NOW"), ("confidence_score", Json.num 2)]
    ∧ (decideHiring sampleAgree (.failure "m")
        (.ok "\x7b\"final_decision\":\"HIRE_NOW\",\"confidence_score\":2\x7d")
        (.failure "c")).getField "confidence_score" = some (.num 2)
    ∧ ¬ (2 : ℚ) ≤ 1
    ∧ (decideHiring sampleAgree (.failure "m")
        (.ok "\x7b\"final_decision\":\"HIRE_NOW\",\"confidence_score\":2\x7d")
        (.failure "c")).getField "final_decision" = some (.str "HIRE_NOW")
    ∧ "HIRE_NOW" ≠ "HIRE" ∧ "HIRE_NOW" ≠ "REJECT" ∧ "HIRE_NOW" ≠ "MAYBE" :=
  ⟨rfl, rfl, by norm_num, rfl, by decide, by decide, by decide⟩

/-- C7 amended: whenever the judgment capability fails — in particular
when mediation, judgment and clarification all fail — the returned
decision carries confidence 1/2 ∈ [0,1] and outcome MAYBE ∈
{HIRE, REJECT, MAYBE}; bounds are not enforced on parsed judgment
output. -/
theorem decision_bounds_on_judgment_failure (e : Evals)
    (mediator judgment clarification : CapResult)
    (h : generateFinalDecision judgment = none) :
    (decideHiring e mediator judgment clarification).getField "confidence_score"
        = some (.num (1 / 2))
    ∧ (0 : ℚ) ≤ 1 / 2 ∧ (1 / 2 : ℚ) ≤ 1
    ∧ (decideHiring e mediator judgment clarification).getField "final_decision"
        = some (.str "MAYBE")
    ∧ "MAYBE" ∈ ["HIRE", "REJECT", "MAYBE"] := by
  have hd := decideHiring_fallback_of_judgmentNone e mediator judgment clarification h
  exact ⟨by rw [hd]; rfl, by norm_num, by norm_num, by rw [hd]; rfl, by decide⟩

/-- Witness for C7 (amended) with all capabilities failing. -/
theorem decision_bounds_on_judgment_failure_witness :
    (decideHiring sampleAgree (.failure "m") (.failure "j") (.failure "c")).getField
        "confidence_score" = some (.num (1 / 2))
    ∧ (decideHiring sampleAgree (.failure "m") (.failure "j") (.failure "c")).getField
        "final_decision" = some (.str "MAYBE") :=
  ⟨(decision_bounds_on_judgment_failure sampleAgree
      (.failure "m") (.failure "j") (.failure "c") rfl).1,
   (decision_bounds_on_judgment_failure sampleAgree
      (.failure "m") (.failure "j") (.failure "c") rfl).2.2.2.1⟩

/-- The Scenario B scores 9/4/8 trigger the discrepancy test. -/
lemma needsNegotiation_sampleConflict :
    needsNegotiation sampleConflict = true := by
  rw [needsNegotiation_of_scores (show scores? sampleConflict = some (9, 4, 8) from rfl)]
  simp only [decide_eq_true_eq]
  unfold maxDeviation
  norm_num

/-- C8 counterexample: a mediator reply with consensus score 42 is
returned without range validation — the consensus score lies outside
[1,10]. -/
theorem consensus_range_cex :
    (Agents.negotiateScores sampleConflict
        (.ok "\x7b\"consensus_score\":42,\"reasoning\":\"x\"\x7d")).1
      = some (Json.obj [("consensus_score", Json.num 42), ("reasoning", Json.str "x")])
    ∧ (Json.obj [("consensus_score", Json.num 42),
        ("reasoning", Json.str "x")]).numField "consensus_score" = some 42
    ∧ ¬ (42 : ℚ) ≤ 10 := by
  refine ⟨?_, rfl, by norm_num⟩
  unfold Agents.negotiateScores Agents.negotiateScoresRun
  simp only [needsNegotiation_sampleConflict]
  rfl

/-- C8 amended: the parsed consensus object is returned without validating
that its score lies in [1,10]; when the mediator fails or returns
unparseable content, `negotiateScores` returns null instead of aborting,
and the decision step still proceeds, delivering the judgment verdict on
the raw scores. -/
theorem negotiation_soft_failure (e : Evals)
    (mediator judgment clarification : CapResult) (d : Json)
    (hm : mediatorUnusable mediator = true)
    (hd : generateFinalDecision judgment = some d)
    (hnm : isMaybeOutcome d = false) :
    (Agents.negotiateScores e mediator).1 = none
    ∧ decideHiring e mediator judgment clarification = d := by
  refine ⟨Agents.negotiateScores_null_of_unusable hm, ?_⟩
  unfold decideHiring
  rw [decideHiringBody_eq hd]
  simp [hnm]

/-- Witness for C8 (amended): unusable mediator, judgment delivers HIRE;
the round completes on the raw scores. -/
theorem negotiation_soft_failure_witness :
    (Agents.negotiateScores sampleConflict (.ok "nope")).1 = none
    ∧ decideHiring sampleConflict (.ok "nope")
        (.ok "\x7b\"final_decision\":\"HIRE\",\"confidence_score\":0.9\x7d")
        (.failure "c")
      = Json.obj [("final_decision", Json.str "HIRE"),
          ("confidence_score", Json.num (mkRat 9 10))] :=
  negotiation_soft_failure sampleConflict (.ok "nope")
    (.ok "\x7b\"final_decision\":\"HIRE\",\"confidence_score\":0.9\x7d")
    (.failure "c") _ rfl rfl rfl

/-- C9 counterexample: the clarification invocation succeeds — it resolves
with text — yet because the trimmed text is empty, no question is attached
and the rationale is unchanged, contradicting the claim that a successful
invocation always attaches its returned question text. -/
theorem clarification_not_attached_cex :
    generateFollowUpQuestion (.ok " ") = some ""
    ∧ clarifierCalls sampleAgree (.failure "m")
        (.ok "\x7b\"final_decision\":\"MAYBE\",\"confidence_score\":0.5,\"reasoning\":\"r\"\x7d")
        (.ok " ") = 1
    ∧ (decideHiring sampleAgree (.failure "m")
        (.ok "\x7b\"final_decision\":\"MAYBE\",\"confidence_score\":0.5,\"reasoning\":\"r\"\x7d")
        (.ok " ")).getField "follow_up_question" = none
    ∧ (decideHiring sampleAgree (.failure "m")
        (.ok "\x7b\"final_decision\":\"MAYBE\",\"confidence_score\":0.5,\"reasoning\":\"r\"\x7d")
        (.ok " ")).getField "reasoning" = some (.str "r") :=
  ⟨rfl, rfl, rfl, rfl⟩

/-- C9 amended: when the judgment outcome is MAYBE with no truthy
follow-up question attached, the clarification generator is invoked
exactly once; if it succeeds with text whose trim is non-empty, the
trimmed text is attached and the note appended to a string rationale; if
it fails or returns only whitespace, the decision is returned unchanged
and without error; otherwise the generator is not invoked at all. -/
theorem clarification_step_characterization (e : Evals)
    (mediator judgment clarification : CapResult) (d : Json)
    (hd : generateFinalDecision judgment = some d) :
    ((isMaybeOutcome d && !truthy (d.getField "follow_up_question")) = true →
      clarifierCalls e mediator judgment clarification = 1
      ∧ (∀ t, clarification = .ok t → jsTrim t ≠ "" →
          decideHiring e mediator judgment clarification = attachFollowUp d (jsTrim t)
          ∧ (decideHiring e mediator judgment clarification).getField
              "follow_up_question" = some (.str (jsTrim t))
          ∧ (∀ s, d.getField "reasoning" = some (.str s) →
              (decideHiring e mediator judgment clarification).getField
                "reasoning" = some (.str (s ++ clarifyNote))))
      ∧ (∀ t, clarification = .ok t → jsTrim t = "" →
          decideHiring e mediator judgment clarification = d)
      ∧ (∀ msg, clarification = .failure msg →
          decideHiring e mediator judgment clarification = d))
    ∧ ((isMaybeOutcome d && !truthy (d.getField "follow_up_question")) = false →
        clarifierCalls e mediator judgment clarification = 0
        ∧ decideHiring e mediator judgment clarification = d) := by
  obtain ⟨kvs, rfl⟩ := generateFinalDecision_obj hd
  constructor
  · intro hcond
    refine ⟨?_, ?_, ?_, ?_⟩
    · unfold clarifierCalls
      rw [decideHiringBody_eq hd, if_pos hcond]
      cases hq : generateFollowUpQuestion clarification with
      | none => simp [hq]
      | some followUp =>
        by_cases hfu : (followUp == "") = true
        · simp [hq, hfu]
        · simp [hq, hfu]
    · intro t ht htrim
      subst ht
      have hq : generateFollowUpQuestion (.ok t) = some (jsTrim t) := rfl
      have hne : (jsTrim t == "") = false := by
        cases hbe : jsTrim t == "" with
        | false => rfl
        | true => exact absurd (eq_of_beq hbe) htrim
      refine ⟨?_, ?_, ?_⟩
      · unfold decideHiring
        rw [decideHiringBody_eq hd, if_pos hcond]
        simp [hq, hne]
      · unfold decideHiring
        rw [decideHiringBody_eq hd, if_pos hcond]
        simp [hq, hne, attachFollowUp_question]
      · intro s hs
        unfold decideHiring
        rw [decideHiringBody_eq hd, if_pos hcond]
        simp [hq, hne, attachFollowUp_reasoning kvs (jsTrim t) s hs]
    · intro t ht htrim
      subst ht
      have hq : generateFollowUpQuestion (.ok t) = some (jsTrim t) := rfl
      unfold decideHiring
      rw [decideHiringBody_eq hd, if_pos hcond]
      simp [hq, htrim]
    · intro msg hmsg
      subst hmsg
      unfold decideHiring
      rw [decideHiringBody_eq hd, if_pos hcond]
      rfl
  · intro hcond
    have hcond' : ¬ (isMaybeOutcome (Json.obj kvs)
        && !truthy ((Json.obj kvs).getField "follow_up_question")) = true := by
      simp [hcond]
    constructor
    · unfold clarifierCalls
      rw [decideHiringBody_eq hd, if_neg hcond']
    · unfold decideHiring
      rw [decideHiringBody_eq hd, if_neg hcond']

/-- Witness for C9 (amended): MAYBE verdict, clarification succeeds with
text trimming to a non-empty question; it is attached and the note
appended. -/
theorem clarification_step_characterization_witness :
    clarifierCalls sampleAgree (.failure "m")
        (.ok "\x7b\"final_decision\":\"MAYBE\",\"confidence_score\":0.5,\"reasoning\":\"r\"\x7d")
        (.ok " q ") = 1
    ∧ (decideHiring sampleAgree (.failure "m")
        (.ok "\x7b\"final_decision\":\"MAYBE\",\"confidence_score\":0.5,\"reasoning\":\"r\"\x7d")
        (.ok " q ")).getField "follow_up_question" = some (.str "q")
    ∧ (decideHiring sampleAgree (.failure "m")
        (.ok "\x7b\"final_decision\":\"MAYBE\",\"confidence_score\":0.5,\"reasoning\":\"r\"\x7d")
        (.ok " q ")).getField "reasoning"
        = some (.str ("r" ++ clarifyNote)) := by
  have h := clarification_step_characterization sampleAgree (.failure "m")
    (.ok "\x7b\"final_decision\":\"MAYBE\",\"confidence_score\":0.5,\"reasoning\":\"r\"\x7d")
    (.ok " q ")
    (Json.obj [("final_decision", Json.str "MAYBE"),
      ("confidence_score", Json.num (mkRat 1 2)), ("reasoning", Json.str "r")])
    rfl
  have h1 := h.1 rfl
  have h2 := h1.2.1 " q " rfl (by decide)
  exact ⟨h1.1, h2.2.1, h2.2.2 "r" rfl⟩

/-- C10: the SmartInference and Gemini copies of `negotiateScores` agree
on every input: same mediator-invocation condition (max deviation from the
mean strictly above 2), same result — the parsed consensus object when the
response contains one, null in every other case — and neither throws (both
are total, their catches returning null). -/
theorem negotiation_impls_equivalent (e : Evals) (r : CapResult) (a b c : ℚ)
    (h : scores? e = some (a, b, c)) :
    Agents.negotiateScores e r = GeminiAgents.negotiateScores e r
    ∧ ((Agents.negotiateScores e r).2 = 1 ↔ 2 < maxDeviation a b c)
    ∧ ((GeminiAgents.negotiateScores e r).2 = 1 ↔ 2 < maxDeviation a b c)
    ∧ (∀ msg, r = .failure msg → (Agents.negotiateScores e r).1 = none)
    ∧ (∀ t, r = .ok t → (extractBraces t).bind jsonParse = none →
        (Agents.negotiateScores e r).1 = none)
    ∧ (∀ t m v, r = .ok t → extractBraces t = some m → jsonParse m = some v →
        2 < maxDeviation a b c → (Agents.negotiateScores e r).1 = some v) := by
  refine ⟨negotiateScores_impls_agree e r, ?_, ?_, ?_, ?_, ?_⟩
  · rw [agents_negotiateScores_count, needsNegotiation_of_scores h]
    by_cases hdev : 2 < maxDeviation a b c <;> simp [hdev]
  · rw [gemini_negotiateScores_count, needsNegotiation_of_scores h]
    by_cases hdev : 2 < maxDeviation a b c <;> simp [hdev]
  · intro msg hr
    subst hr
    exact Agents.negotiateScores_null_of_unusable rfl
  · intro t hr hb
    subst hr
    exact Agents.negotiateScores_null_of_unusable (by simp [mediatorUnusable, hb])
  · intro t m v hr hx hp hdev
    subst hr
    unfold Agents.negotiateScores Agents.negotiateScoresRun
    rw [needsNegotiation_of_scores h]
    simp [hdev, hx, hp]

/-- Witness for C10 at the Scenario B scores with a parseable consensus
reply. -/
theorem negotiation_impls_equivalent_witness :
    Agents.negotiateScores sampleConflict
        (.ok "\x7b\"consensus_score\":6,\"reasoning\":\"ok\"\x7d")
      = GeminiAgents.negotiateScores sampleConflict
        (.ok "\x7b\"consensus_score\":6,\"reasoning\":\"ok\"\x7d")
    ∧ (Agents.negotiateScores sampleConflict
        (.ok "\x7b\"consensus_score\":6,\"reasoning\":\"ok\"\x7d")).1
      = some (Json.obj [("consensus_score", Json.num 6), ("reasoning", Json.str "ok")]) := by
  have h := negotiation_impls_equivalent sampleConflict
    (.ok "\x7b\"consensus_score\":6,\"reasoning\":\"ok\"\x7d") 9 4 8 rfl
  exact ⟨h.1, h.2.2.2.2.2 _ _ _ rfl rfl rfl (by unfold maxDeviation; norm_num)⟩

end HireFlow
